import Mathlib

/-!
Shallow embedding of the Anime-Dashboard manifest generators
(`src/tools/generate_manifest.py` and `src/tools/generate_cosmetics.py`).

Strings are modelled as `List Char` (ASCII character operations mirror the
Python string methods used by the scripts, which only meet ASCII data).
Directory listings are modelled as lists of `Entry` values; `os.listdir`
order is preserved as list order, and Python dicts (which keep insertion
order) are modelled as association lists.
-/

namespace AnimeDashboard

/-- `s.data` of a string literal, used only to spell concrete inputs. -/
def chars (s : String) : List Char := s.data

/-! ## Shared string helpers -/

/-- Parse a run of decimal digit characters as a natural number,
mirroring Python `int()` on a digit string. -/
def digitsToNat (ds : List Char) : Nat :=
  ds.foldl (fun acc c => 10 * acc + (c.toNat - '0'.toNat)) 0

/-- `re.search(r'(\d+)', s)`: the first maximal run of decimal digits in
`s`, parsed as a number; `none` when `s` has no digit. -/
def firstNumber : List Char → Option Nat
  | [] => none
  | c :: cs =>
    if c.isDigit then some (digitsToNat (c :: cs.takeWhile Char.isDigit))
    else firstNumber cs

/-- Python `str.startswith` on character lists. -/
def startsWithL : List Char → List Char → Bool
  | _, [] => true
  | [], _ :: _ => false
  | c :: cs, d :: ds => c = d && startsWithL cs ds

/-- Python `str.endswith` on character lists. -/
def endsWithL (s suf : List Char) : Bool :=
  startsWithL s.reverse suf.reverse

/-- Python substring test `pat in s`. -/
def containsSub (s pat : List Char) : Bool :=
  match s with
  | [] => pat.isEmpty
  | _ :: cs => startsWithL s pat || containsSub cs pat

/-- Python `str.lower` (ASCII). -/
def lowerStr (s : List Char) : List Char := s.map Char.toLower

/-- Python `str.replace(a, b)` for single characters. -/
def replaceChar (s : List Char) (a b : Char) : List Char :=
  s.map fun c => if c = a then b else c

/-- Python `str.split('-')`: split on every `'-'`, keeping empty tokens;
the empty string yields `[[]]`, as `''.split('-') == ['']`. -/
def splitDash : List Char → List (List Char)
  | [] => [[]]
  | c :: cs =>
    if c = '-' then [] :: splitDash cs
    else
      match splitDash cs with
      | t :: ts => (c :: t) :: ts
      | [] => [[c]]

/-- Python `' '.join ws`. -/
def joinSpace : List (List Char) → List Char
  | [] => []
  | [w] => w
  | w :: ws => w ++ ' ' :: joinSpace ws

/-- Python `str.capitalize` (ASCII): upper-case the first character,
lower-case the rest. -/
def pyCapitalize : List Char → List Char
  | [] => []
  | c :: cs => c.toUpper :: cs.map Char.toLower

/-- `os.path.splitext(filename)[0]` for a bare directory-entry name (no
path separator): drop the suffix starting at the last `'.'`, unless every
character before that dot is itself a dot (CPython skips leading dots, so
`'.bashrc'` and `'...'` keep their dots). -/
def splitextBase (s : List Char) : List Char :=
  let r := s.reverse
  let ext := r.takeWhile (fun c => c ≠ '.')
  if ext.length = r.length then s
  else
    let base := (r.drop (ext.length + 1)).reverse
    if base.any (fun c => c ≠ '.') then base else s

/-- First-match association-list lookup with a default, mirroring
`dict.get(k, dflt)` (the embedded tables have distinct keys). -/
def lookupD {α : Type} : List (List Char × α) → List Char → α → α
  | [], _, dflt => dflt
  | (k', v) :: rest, k, dflt => if k' = k then v else lookupD rest k dflt

/-! ## Filesystem model

A directory listing is a `List Entry`; `Entry.dir` carries the listing of
the subdirectory. `os.listdir` returns bare names (never containing a path
separator); the model allows arbitrary names. -/

inductive Entry : Type
  | file (name : List Char)
  | dir (name : List Char) (entries : List Entry)

/-- The bare name of a directory entry. -/
def Entry.name : Entry → List Char
  | .file n => n
  | .dir n _ => n

/-- `os.path.join a b` on POSIX for a relative bare name `b` and a first
component not ending in `'/'` (always the case for the scripts' inputs). -/
def joinPath (a b : List Char) : List Char := a ++ '/' :: b

/-- `path.replace('\\', '/')`. -/
def normSlash (s : List Char) : List Char := replaceChar s '\\' '/'

/-! ## `generate_manifest.py` (gacha) -/

def GACHA_ROOT_DIR : List Char := chars "images/gacha"

def IMAGE_EXTENSIONS : List (List Char) :=
  [chars ".jpg", chars ".jpeg", chars ".png", chars ".webp", chars ".gif"]

/-- `image_file.lower().endswith(IMAGE_EXTENSIONS)`. -/
def hasImageExt (n : List Char) : Bool :=
  IMAGE_EXTENSIONS.any fun ext => endsWithL (lowerStr n) ext

/-- The gacha rarity: an integer star tier or the string `"Prismatic"`,
modelled as a sum as the two have different Python types. -/
inductive GachaRarity : Type
  | star (n : Nat)
  | prismatic
deriving DecidableEq

/-- `get_rarity_from_filename`: first number in the filename mapped
through the fixed thresholds; tier 1 when there is no digit. -/
def get_rarity_from_filename (filename : List Char) : GachaRarity :=
  match firstNumber filename with
  | none => .star 1
  | some num =>
    if num ≤ 2 then .star 1
    else if num ≤ 4 then .star 2
    else if num ≤ 6 then .star 3
    else if num ≤ 8 then .star 4
    else if num ≤ 10 then .star 5
    else .prismatic

structure GachaVariant where
  path : List Char
  rarity : GachaRarity
deriving DecidableEq

/-- The body of the innermost loop of `create_gacha_manifest`: a listed
entry whose name (lower-cased) ends with an allowed extension yields a
variant — the code performs no `isfile` check at this level, so the
test depends on the name only. -/
def gachaVariantOfEntry (character_path : List Char) (e : Entry) :
    Option GachaVariant :=
  if hasImageExt e.name then
    some { path := normSlash (joinPath character_path e.name),
           rarity := get_rarity_from_filename e.name }
  else none

/-- The inner loop of `create_gacha_manifest` over one character
directory listing. -/
def charVariants (character_path : List Char) (entries : List Entry) :
    List GachaVariant :=
  entries.filterMap (gachaVariantOfEntry character_path)

/-- The body of the middle loop: each subdirectory of an anime directory
is a character; characters with an empty variant list are omitted. -/
def gachaCharEntry (anime_path : List Char) : Entry →
    Option (List Char × List GachaVariant)
  | .dir character_name es =>
    let vs := charVariants (joinPath anime_path character_name) es
    if vs.isEmpty then none else some (character_name, vs)
  | .file _ => none

/-- The middle loop over one anime directory listing. -/
def animeChars (anime_path : List Char) (entries : List Entry) :
    List (List Char × List GachaVariant) :=
  entries.filterMap (gachaCharEntry anime_path)

/-- The body of the outer loop: each subdirectory of the root is an
anime and is always entered into the manifest, even when it ends up
with no characters. -/
def gachaAnimeEntry : Entry →
    Option (List Char × List (List Char × List GachaVariant))
  | .dir anime_name es =>
    some (anime_name, animeChars (joinPath GACHA_ROOT_DIR anime_name) es)
  | .file _ => none

/-- `create_gacha_manifest` as a pure function of the root listing. -/
def create_gacha_manifest (root : List Entry) :
    List (List Char × List (List Char × List GachaVariant)) :=
  root.filterMap gachaAnimeEntry

/-! ## `generate_cosmetics.py` -/

def PACK_COSTS : List (List Char × Nat) :=
  [(chars "sakura_pack", 750), (chars "neon_pack", 600)]

def RARITY_RULES : List (List Char × List Char) :=
  [(chars "border", chars "common"), (chars "icon", chars "common"),
   (chars "animated", chars "rare"), (chars "theme", chars "epic")]

/-- `format_name`: split on `'-'`, capitalize each token, join with
single spaces. -/
def format_name (s : List Char) : List Char :=
  joinSpace ((splitDash s).map pyCapitalize)

structure CosmeticItem where
  id : List Char
  name : List Char
  type : List Char
  rarity : List Char
deriving DecidableEq

/-- `get_cosmetic_details`: strip the extension, take the token before
the first `'-'` as the type, look the type up in `RARITY_RULES`
(default `'common'`), and override the rarity to the table's `'animated'`
entry whenever the base name contains the substring `'animated'`. -/
def get_cosmetic_details (filename : List Char) : CosmeticItem :=
  let base_name := splitextBase filename
  let item_type := (splitDash base_name).headD []
  let rarity₀ := lookupD RARITY_RULES item_type (chars "common")
  let rarity :=
    if containsSub base_name (chars "animated") then
      lookupD RARITY_RULES (chars "animated") (chars "rare")
    else rarity₀
  { id := base_name, name := format_name base_name,
    type := item_type, rarity := rarity }

structure CosmeticPack where
  name : List Char
  cost : Nat
  items : List CosmeticItem
deriving DecidableEq

/-- The body of the inner loop of `create_cosmetics_manifest`: only
regular files yield items (the code checks `os.path.isfile`), with no
extension filter at all. -/
def cosmeticsItemOfEntry : Entry → Option CosmeticItem
  | .file n => some (get_cosmetic_details n)
  | .dir _ _ => none

/-- The inner loop of `create_cosmetics_manifest` over one pack
directory listing. -/
def packItems (entries : List Entry) : List CosmeticItem :=
  entries.filterMap cosmeticsItemOfEntry

/-- The body of the outer loop: each subdirectory of the root is a
pack; packs with zero items are omitted; the pack name is the directory
name with `'_'` replaced by `'-'` and then formatted; the cost comes
from `PACK_COSTS` with default 1000. -/
def cosmeticsPackEntry : Entry → Option (List Char × CosmeticPack)
  | .dir pack_id es =>
    let items := packItems es
    if items.isEmpty then none
    else
      some (pack_id,
        { name := format_name (replaceChar pack_id '_' '-'),
          cost := lookupD PACK_COSTS pack_id 1000,
          items := items })
  | .file _ => none

/-- `create_cosmetics_manifest` as a pure function of the root listing. -/
def create_cosmetics_manifest (root : List Entry) :
    List (List Char × CosmeticPack) :=
  root.filterMap cosmeticsPackEntry

/-- A file entry's name (spec-side auxiliary used to state which
entries contribute items). -/
def fileName? : Entry → Option (List Char)
  | .file n => some n
  | .dir _ _ => none

/-- Whether an entry is a regular file (spec-side auxiliary). -/
def Entry.isFile : Entry → Bool
  | .file _ => true
  | .dir _ _ => false

/-! ## Top-level run model

Each script first checks `os.path.isdir(ROOT)`; when the root is missing
it prints an error and returns without writing anything, otherwise it
builds the manifest and writes it. The filesystem argument is `none` when
the root directory does not exist. Both functions are total: nothing is
raised past the top level. -/

inductive GenOutcome (α : Type) : Type
  | missingRoot
  | written (manifest : α)
deriving DecidableEq

def run_gacha (fs : Option (List Entry)) :
    GenOutcome (List (List Char × List (List Char × List GachaVariant))) :=
  match fs with
  | none => .missingRoot
  | some root => .written (create_gacha_manifest root)

def run_cosmetics (fs : Option (List Entry)) :
    GenOutcome (List (List Char × CosmeticPack)) :=
  match fs with
  | none => .missingRoot
  | some root => .written (create_cosmetics_manifest root)

/-! ## Helper lemmas -/

theorem firstNumber_eq_none_of_no_digit (f : List Char)
    (h : ∀ c ∈ f, c.isDigit = false) : firstNumber f = none := by
  induction f with
  | nil => rfl
  | cons c cs ih =>
    have hc : c.isDigit = false := h c (List.mem_cons_self c cs)
    simp only [firstNumber, hc, Bool.false_eq_true, if_false]
    exact ih fun d hd => h d (List.mem_cons_of_mem c hd)

theorem takeWhile_digits_append (run post : List Char)
    (hrun : ∀ c ∈ run, c.isDigit = true)
    (hpost : ∀ d, post.head? = some d → d.isDigit = false) :
    (run ++ post).takeWhile Char.isDigit = run := by
  induction run with
  | nil =>
    cases post with
    | nil => rfl
    | cons d ds =>
      have hd : d.isDigit = false := hpost d rfl
      simp [List.takeWhile_cons, hd]
  | cons c cs ih =>
    have hc : c.isDigit = true := hrun c (List.mem_cons_self c cs)
    simp only [List.cons_append, List.takeWhile_cons, hc, if_true]
    rw [ih fun d hd => hrun d (List.mem_cons_of_mem c hd)]

theorem firstNumber_append_run (pre run post : List Char)
    (hpre : ∀ c ∈ pre, c.isDigit = false) (hne : run ≠ [])
    (hrun : ∀ c ∈ run, c.isDigit = true)
    (hpost : ∀ d, post.head? = some d → d.isDigit = false) :
    firstNumber (pre ++ (run ++ post)) = some (digitsToNat run) := by
  induction pre with
  | nil =>
    cases run with
    | nil => exact absurd rfl hne
    | cons r rs =>
      have hr : r.isDigit = true := hrun r (List.mem_cons_self r rs)
      simp only [List.nil_append, List.cons_append, firstNumber, hr, if_true]
      show some (digitsToNat (r :: (rs ++ post).takeWhile Char.isDigit)) = _
      rw [takeWhile_digits_append rs post
        (fun c hc => hrun c (List.mem_cons_of_mem r hc)) hpost]
  | cons c cs ih =>
    have hc : c.isDigit = false := hpre c (List.mem_cons_self c cs)
    simp only [List.cons_append, firstNumber, hc, Bool.false_eq_true, if_false]
    exact ih fun d hd => hpre d (List.mem_cons_of_mem c hd)

theorem splitDash_eq_single (s : List Char) (h : ∀ c ∈ s, c ≠ '-') :
    splitDash s = [s] := by
  induction s with
  | nil => rfl
  | cons c cs ih =>
    have hc : c ≠ '-' := h c (List.mem_cons_self c cs)
    simp only [splitDash, hc, if_false]
    rw [ih fun d hd => h d (List.mem_cons_of_mem c hd)]

theorem startsWithL_nil (s : List Char) : startsWithL s [] = true := by
  cases s <;> rfl

theorem startsWithL_append (x y : List Char) : startsWithL (x ++ y) x = true := by
  induction x with
  | nil => exact startsWithL_nil y
  | cons c cs ih => simp [startsWithL, ih]

theorem normSlash_append (x y : List Char) :
    normSlash (x ++ y) = normSlash x ++ normSlash y := by
  simp [normSlash, replaceChar]

theorem backslash_not_mem_normSlash (s : List Char) : '\\' ∉ normSlash s := by
  intro h
  simp only [normSlash, replaceChar, List.mem_map] at h
  obtain ⟨c, _, hc⟩ := h
  by_cases h' : c = '\\'
  · rw [if_pos h'] at hc
    exact absurd hc (by decide)
  · rw [if_neg h'] at hc
    exact h' hc

theorem charVariants_eq_filter_map (p : List Char) (es : List Entry) :
    charVariants p es =
      (es.filter fun e => hasImageExt e.name).map fun e =>
        { path := normSlash (joinPath p e.name),
          rarity := get_rarity_from_filename e.name } := by
  induction es with
  | nil => rfl
  | cons e es ih =>
    by_cases h : hasImageExt e.name = true
    · simp only [charVariants, List.filterMap_cons, gachaVariantOfEntry, h,
        if_true, List.filter_cons, List.map_cons] at ih ⊢
      rw [ih]
    · simp only [charVariants, List.filterMap_cons, gachaVariantOfEntry, h,
        Bool.false_eq_true, if_false, List.filter_cons] at ih ⊢
      exact ih

theorem mem_charVariants {p : List Char} {es : List Entry} {v : GachaVariant}
    (h : v ∈ charVariants p es) :
    ∃ n, hasImageExt n = true ∧
      v = { path := normSlash (joinPath p n),
            rarity := get_rarity_from_filename n } := by
  simp only [charVariants, List.mem_filterMap] at h
  obtain ⟨e, _, he⟩ := h
  rw [gachaVariantOfEntry] at he
  by_cases hx : hasImageExt e.name = true
  · rw [if_pos hx] at he
    exact ⟨e.name, hx, (Option.some.inj he).symm⟩
  · rw [if_neg hx] at he
    exact Option.noConfusion he

theorem mem_animeChars {p : List Char} {es : List Entry}
    {c : List Char} {vs : List GachaVariant} (h : (c, vs) ∈ animeChars p es) :
    vs ≠ [] ∧ ∃ es', vs = charVariants (joinPath p c) es' := by
  simp only [animeChars, List.mem_filterMap] at h
  obtain ⟨e, _, he⟩ := h
  cases e with
  | file n => exact Option.noConfusion he
  | dir n es' =>
    simp only [gachaCharEntry] at he
    by_cases hv : (charVariants (joinPath p n) es').isEmpty = true
    · rw [if_pos hv] at he
      exact Option.noConfusion he
    · rw [if_neg hv] at he
      rw [Option.some.injEq, Prod.mk.injEq] at he
      obtain ⟨rfl, rfl⟩ := he
      refine ⟨?_, es', rfl⟩
      intro hnil
      exact hv (by simp [hnil])

theorem mem_create_gacha {root : List Entry} {a : List Char}
    {chs : List (List Char × List GachaVariant)}
    (h : (a, chs) ∈ create_gacha_manifest root) :
    ∃ es, Entry.dir a es ∈ root ∧
      chs = animeChars (joinPath GACHA_ROOT_DIR a) es := by
  simp only [create_gacha_manifest, List.mem_filterMap] at h
  obtain ⟨e, hmem, he⟩ := h
  cases e with
  | file n => exact Option.noConfusion he
  | dir n es =>
    simp only [gachaAnimeEntry, Option.some.injEq, Prod.mk.injEq] at he
    obtain ⟨rfl, rfl⟩ := he
    exact ⟨es, hmem, rfl⟩

theorem mem_create_cosmetics {root : List Entry} {k : List Char}
    {p : CosmeticPack} (h : (k, p) ∈ create_cosmetics_manifest root) :
    ∃ es, packItems es ≠ [] ∧
      p = { name := format_name (replaceChar k '_' '-'),
            cost := lookupD PACK_COSTS k 1000,
            items := packItems es } := by
  simp only [create_cosmetics_manifest, List.mem_filterMap] at h
  obtain ⟨e, _, he⟩ := h
  cases e with
  | file n => exact Option.noConfusion he
  | dir n es =>
    simp only [cosmeticsPackEntry] at he
    by_cases hI : (packItems es).isEmpty = true
    · rw [if_pos hI] at he
      exact Option.noConfusion he
    · rw [if_neg hI] at he
      rw [Option.some.injEq, Prod.mk.injEq] at he
      obtain ⟨rfl, rfl⟩ := he
      refine ⟨es, ?_, rfl⟩
      intro hnil
      exact hI (by simp [hnil])

theorem startsWithL_normSlash_joins (a c n : List Char) :
    startsWithL (normSlash (joinPath (joinPath (joinPath GACHA_ROOT_DIR a) c) n))
      (chars "images/gacha/") = true := by
  have h3 : joinPath (joinPath (joinPath GACHA_ROOT_DIR a) c) n
      = chars "images/gacha/" ++ (a ++ ('/' :: c ++ '/' :: n)) := by
    simp only [joinPath, List.append_assoc]
    rfl
  rw [h3, normSlash_append]
  have h2 : normSlash (chars "images/gacha/") = chars "images/gacha/" := rfl
  rw [h2]
  exact startsWithL_append _ _

theorem packItems_eq_map (es : List Entry) :
    packItems es = (es.filterMap fileName?).map get_cosmetic_details := by
  induction es with
  | nil => rfl
  | cons e es ih =>
    cases e with
    | file n =>
      simp only [packItems, List.filterMap_cons, cosmeticsItemOfEntry,
        fileName?, List.map_cons] at ih ⊢
      rw [ih]
    | dir n es' =>
      simp only [packItems, List.filterMap_cons, cosmeticsItemOfEntry,
        fileName?] at ih ⊢
      exact ih

/-! ## Claim theorems -/

/-- C1: the gacha rarity extractor is total and is determined by the
first run of decimal digits in the filename, parsed as `n`: no digit
gives tier 1, and otherwise the fixed thresholds give tier 1 for
`n ≤ 2`, 2 for `n ≤ 4`, 3 for `n ≤ 6`, 4 for `n ≤ 8`, 5 for `n ≤ 10`,
and Prismatic for `n > 10`; with the four concrete examples from the
spec. -/
theorem C1_gacha_rarity_thresholds (f : List Char) :
    ((∀ c ∈ f, c.isDigit = false) → get_rarity_from_filename f = .star 1) ∧
    (∀ pre run post, f = pre ++ (run ++ post) →
      (∀ c ∈ pre, c.isDigit = false) → run ≠ [] →
      (∀ c ∈ run, c.isDigit = true) →
      (∀ d, post.head? = some d → d.isDigit = false) →
      get_rarity_from_filename f =
        (if digitsToNat run ≤ 2 then .star 1
         else if digitsToNat run ≤ 4 then .star 2
         else if digitsToNat run ≤ 6 then .star 3
         else if digitsToNat run ≤ 8 then .star 4
         else if digitsToNat run ≤ 10 then .star 5
         else .prismatic)) ∧
    get_rarity_from_filename (chars "Character-1.jpg") = .star 1 ∧
    get_rarity_from_filename (chars "Character-7.jpg") = .star 4 ∧
    get_rarity_from_filename (chars "Character-11.jpg") = .prismatic ∧
    get_rarity_from_filename (chars "NoNumber.png") = .star 1 := by
  refine ⟨?_, ?_, by decide, by decide, by decide, by decide⟩
  · intro h
    unfold get_rarity_from_filename
    rw [firstNumber_eq_none_of_no_digit f h]
  · intro pre run post hf hpre hne hrun hpost
    unfold get_rarity_from_filename
    rw [hf, firstNumber_append_run pre run post hpre hne hrun hpost]

/-- C1 witness: the second conjunct applied to the concrete split of
`Character-11.jpg` into `Character-`, the digit run `11`, and `.jpg`. -/
theorem C1_gacha_rarity_thresholds_witness :
    get_rarity_from_filename (chars "Character-11.jpg") =
      (if digitsToNat ['1', '1'] ≤ 2 then .star 1
       else if digitsToNat ['1', '1'] ≤ 4 then .star 2
       else if digitsToNat ['1', '1'] ≤ 6 then .star 3
       else if digitsToNat ['1', '1'] ≤ 8 then .star 4
       else if digitsToNat ['1', '1'] ≤ 10 then .star 5
       else .prismatic) :=
  (C1_gacha_rarity_thresholds (chars "Character-11.jpg")).2.1
    (chars "Character-") ['1', '1'] (chars ".jpg")
    (by decide) (by decide) (by decide) (by decide) (by decide)

/-- C2: the cosmetic rarity is the type-based lookup in the fixed table
(border and icon map to common, animated to rare, theme to epic, with
default common for unknown types), overridden to rare whenever the
extension-stripped base name contains the substring `animated`; both
`animated-theme-sky.png` and `theme-animated-x.png` get rarity rare,
the latter via the override over its type-based epic. -/
theorem C2_cosmetic_rarity_rules (f : List Char) :
    ((get_cosmetic_details f).rarity =
      if containsSub (splitextBase f) (chars "animated") then chars "rare"
      else lookupD RARITY_RULES ((splitDash (splitextBase f)).headD [])
        (chars "common")) ∧
    lookupD RARITY_RULES (chars "border") (chars "common") = chars "common" ∧
    lookupD RARITY_RULES (chars "icon") (chars "common") = chars "common" ∧
    lookupD RARITY_RULES (chars "animated") (chars "common") = chars "rare" ∧
    lookupD RARITY_RULES (chars "theme") (chars "common") = chars "epic" ∧
    (∀ t, t ≠ chars "border" → t ≠ chars "icon" → t ≠ chars "animated" →
      t ≠ chars "theme" →
      lookupD RARITY_RULES t (chars "common") = chars "common") ∧
    (get_cosmetic_details (chars "animated-theme-sky.png")).rarity =
      chars "rare" ∧
    (get_cosmetic_details (chars "theme-animated-x.png")).rarity =
      chars "rare" ∧
    (get_cosmetic_details (chars "theme-animated-x.png")).type =
      chars "theme" := by
  refine ⟨?_, by decide, by decide, by decide, by decide, ?_,
    by decide, by decide, by decide⟩
  · unfold get_cosmetic_details
    dsimp only
    by_cases h : containsSub (splitextBase f) (chars "animated") = true
    · rw [if_pos h, if_pos h]
      decide
    · rw [if_neg h, if_neg h]
  · intro t h1 h2 h3 h4
    simp only [RARITY_RULES, lookupD]
    rw [if_neg fun h => h1 h.symm, if_neg fun h => h2 h.symm,
      if_neg fun h => h3 h.symm, if_neg fun h => h4 h.symm]

/-- C2 witness: the default branch of the rarity table at the unknown
type token `banner`, together with the concrete override example. -/
theorem C2_cosmetic_rarity_rules_witness :
    lookupD RARITY_RULES (chars "banner") (chars "common") = chars "common" :=
  (C2_cosmetic_rarity_rules []).2.2.2.2.2.1 (chars "banner")
    (by decide) (by decide) (by decide) (by decide)

/-- C3: the cosmetic record's id is the filename with its extension
removed, its name is the formatted base name, and its type is the token
of the base name before the first `-`; with the full concrete record
for `animated-icon-blue.png`. -/
theorem C3_cosmetic_record_fields (f : List Char) :
    (get_cosmetic_details f).id = splitextBase f ∧
    (get_cosmetic_details f).name = format_name (splitextBase f) ∧
    (get_cosmetic_details f).type = (splitDash (splitextBase f)).headD [] ∧
    get_cosmetic_details (chars "animated-icon-blue.png") =
      { id := chars "animated-icon-blue", name := chars "Animated Icon Blue",
        type := chars "animated", rarity := chars "rare" } :=
  ⟨rfl, rfl, rfl, by decide⟩

/-- C4 counterexample: the claim says nested directories are silently
skipped, but the walker tests only the entry's name — a subdirectory of
a character directory named `fake.png` produces a variant. -/
theorem C4_nested_dir_counterexample :
    charVariants (chars "images/gacha/A/C") [Entry.dir (chars "fake.png") []] =
      [{ path := chars "images/gacha/A/C/fake.png", rarity := .star 1 }] := by
  decide

/-- C4 (amended): within each character directory, an entry produces a
GachaVariant iff its name case-insensitively ends with one of the
allowed extensions, regardless of whether the entry is a file or a
nested directory; entries whose names do not match are silently
skipped, and no variants at all are produced iff no entry's name
matches. -/
theorem C4_variant_iff_allowlisted_name (p : List Char) (es : List Entry) :
    charVariants p es =
      (es.filter fun e => hasImageExt e.name).map (fun e =>
        { path := normSlash (joinPath p e.name),
          rarity := get_rarity_from_filename e.name }) ∧
    (charVariants p es = [] ↔ ∀ e ∈ es, hasImageExt e.name = false) := by
  refine ⟨charVariants_eq_filter_map p es, ?_⟩
  rw [charVariants_eq_filter_map p es]
  simp [List.map_eq_nil_iff, List.filter_eq_nil_iff]

/-- C4 witness: a text file in a character directory yields no variant. -/
theorem C4_variant_iff_allowlisted_name_witness :
    charVariants (chars "p") [Entry.file (chars "readme.txt")] = [] :=
  (C4_variant_iff_allowlisted_name (chars "p")
    [Entry.file (chars "readme.txt")]).2.mpr (by decide)

/-- C5: every pack in the cosmetics manifest has a non-empty item list
(an empty pack directory contributes no key), every character in the
gacha manifest has a non-empty variant list, and every anime directory
appears in the gacha manifest even when it has no qualifying
characters — shown both in general and on concrete empty directories. -/
theorem C5_emptiness_invariants (root : List Entry) :
    (∀ k p, (k, p) ∈ create_cosmetics_manifest root → p.items ≠ []) ∧
    (∀ a chs, (a, chs) ∈ create_gacha_manifest root →
      ∀ c vs, (c, vs) ∈ chs → vs ≠ []) ∧
    (∀ n es, Entry.dir n es ∈ root →
      (n, animeChars (joinPath GACHA_ROOT_DIR n) es) ∈
        create_gacha_manifest root) ∧
    create_cosmetics_manifest [Entry.dir (chars "empty_pack") []] = [] ∧
    create_gacha_manifest [Entry.dir (chars "EmptyAnime") []] =
      [(chars "EmptyAnime", [])] := by
  refine ⟨?_, ?_, ?_, by decide, by decide⟩
  · intro k p h
    obtain ⟨es, hne, rfl⟩ := mem_create_cosmetics h
    simpa using hne
  · intro a chs ha c vs hc
    obtain ⟨es, _, rfl⟩ := mem_create_gacha ha
    exact (mem_animeChars hc).1
  · intro n es h
    show _ ∈ List.filterMap gachaAnimeEntry root
    exact List.mem_filterMap.mpr ⟨Entry.dir n es, h, rfl⟩

/-- C5 witness: a pack with one file has a non-empty item list. -/
theorem C5_emptiness_invariants_witness :
    ({ name := chars "Sakura Pack", cost := 750,
       items := [get_cosmetic_details (chars "border-x.png")] } :
      CosmeticPack).items ≠ [] :=
  (C5_emptiness_invariants
    [Entry.dir (chars "sakura_pack") [Entry.file (chars "border-x.png")]]).1
    (chars "sakura_pack") _ (by decide)

/-- C6: when the configured root directory does not exist, each
generator reports the missing root and writes no output (the write step
is never reached); when the root exists, each generator writes its
manifest. Both run functions are total, so nothing is raised past the
top level. -/
theorem C6_missing_root_no_output :
    run_gacha none = .missingRoot ∧
    run_cosmetics none = .missingRoot ∧
    ∀ root, run_gacha (some root) = .written (create_gacha_manifest root) ∧
      run_cosmetics (some root) = .written (create_cosmetics_manifest root) :=
  ⟨rfl, rfl, fun _ => ⟨rfl, rfl⟩⟩

/-- C7: `format_name` splits its input on `-` only (a string without
`-` stays one token), capitalizes each token and joins them with single
spaces, always succeeds, maps the empty string to the empty string, and
formats `border-sakura-solid` to `Border Sakura Solid`; pack directory
names are formatted after first replacing `_` with `-`. -/
theorem C7_format_name_contract (s : List Char) :
    format_name s = joinSpace ((splitDash s).map pyCapitalize) ∧
    ((∀ c ∈ s, c ≠ '-') → format_name s = pyCapitalize s) ∧
    format_name [] = [] ∧
    format_name (chars "border-sakura-solid") = chars "Border Sakura Solid" ∧
    (∀ root k p, (k, p) ∈ create_cosmetics_manifest root →
      p.name = format_name (replaceChar k '_' '-')) := by
  refine ⟨rfl, ?_, rfl, by decide, ?_⟩
  · intro h
    unfold format_name
    rw [splitDash_eq_single s h]
    rfl
  · intro root k p h
    obtain ⟨es, _, rfl⟩ := mem_create_cosmetics h
    rfl

/-- C7 witness: a dash-free string is a single capitalized token, and
the emitted name of the concrete pack `sakura_pack` replaces the
underscore before formatting. -/
theorem C7_format_name_contract_witness :
    format_name (chars "abc") = pyCapitalize (chars "abc") :=
  (C7_format_name_contract (chars "abc")).2.1 (by decide)

/-- C8: every emitted pack's cost is the `PACK_COSTS` lookup of its
directory name — 750 for `sakura_pack`, 600 for `neon_pack`, and the
default 1000 for any other directory name. -/
theorem C8_pack_cost_table (root : List Entry) :
    (∀ k p, (k, p) ∈ create_cosmetics_manifest root →
      p.cost = lookupD PACK_COSTS k 1000) ∧
    lookupD PACK_COSTS (chars "sakura_pack") 1000 = 750 ∧
    lookupD PACK_COSTS (chars "neon_pack") 1000 = 600 ∧
    (∀ d, d ≠ chars "sakura_pack" → d ≠ chars "neon_pack" →
      lookupD PACK_COSTS d 1000 = 1000) := by
  refine ⟨?_, by decide, by decide, ?_⟩
  · intro k p h
    obtain ⟨es, _, rfl⟩ := mem_create_cosmetics h
    rfl
  · intro d h1 h2
    simp only [PACK_COSTS, lookupD]
    rw [if_neg fun h => h1 h.symm, if_neg fun h => h2 h.symm]

/-- C8 witness: the emitted cost of the concrete pack `neon_pack` is
its table entry. -/
theorem C8_pack_cost_table_witness :
    ({ name := chars "Neon Pack", cost := 600,
       items := [get_cosmetic_details (chars "icon-a.png")] } :
      CosmeticPack).cost = lookupD PACK_COSTS (chars "neon_pack") 1000 :=
  (C8_pack_cost_table
    [Entry.dir (chars "neon_pack") [Entry.file (chars "icon-a.png")]]).1
    (chars "neon_pack") _ (by decide)

/-- C9 counterexample: the emitted path is the joined path with every
backslash replaced by `/`, so for a file named `a\b.png` it differs
from the plain `/`-join of root, anime, character and filename that the
claim asserts. -/
theorem C9_backslash_counterexample :
    create_gacha_manifest
      [Entry.dir (chars "A")
        [Entry.dir (chars "C")
          [Entry.file ['a', '\\', 'b', '.', 'p', 'n', 'g']]]] =
      [(chars "A", [(chars "C",
        [{ path := chars "images/gacha/A/C/a/b.png",
           rarity := .star 1 }])])] ∧
    chars "images/gacha/A/C/a/b.png" ≠
      joinPath (joinPath (joinPath GACHA_ROOT_DIR (chars "A")) (chars "C"))
        ['a', '\\', 'b', '.', 'p', 'n', 'g'] := by
  decide

/-- C9 (amended): every emitted variant path is the `/`-join of the
root directory, the anime directory name, the character directory name
and the image filename, with every `\` in the result then replaced by
`/`; consequently every emitted path begins with `images/gacha/` and
contains no `\` character. -/
theorem C9_path_shape (root : List Entry) :
    ∀ a chs, (a, chs) ∈ create_gacha_manifest root →
      ∀ c vs, (c, vs) ∈ chs → ∀ v, v ∈ vs →
        (∃ n, hasImageExt n = true ∧
          v.path = normSlash
            (joinPath (joinPath (joinPath GACHA_ROOT_DIR a) c) n)) ∧
        startsWithL v.path (chars "images/gacha/") = true ∧
        '\\' ∉ v.path := by
  intro a chs ha c vs hc v hv
  obtain ⟨es, _, rfl⟩ := mem_create_gacha ha
  obtain ⟨-, es', rfl⟩ := mem_animeChars hc
  obtain ⟨n, hn, rfl⟩ := mem_charVariants hv
  exact ⟨⟨n, hn, rfl⟩, startsWithL_normSlash_joins a c n,
    backslash_not_mem_normSlash _⟩

/-- C9 witness: the amended path shape at a concrete one-image tree. -/
theorem C9_path_shape_witness :
    (∃ n, hasImageExt n = true ∧
      ({ path := chars "images/gacha/A/C/x-3.png", rarity := .star 2 } :
        GachaVariant).path =
        normSlash (joinPath (joinPath (joinPath GACHA_ROOT_DIR (chars "A"))
          (chars "C")) n)) ∧
    startsWithL
      ({ path := chars "images/gacha/A/C/x-3.png",
         rarity := .star 2 } : GachaVariant).path
      (chars "images/gacha/") = true ∧
    '\\' ∉ ({ path := chars "images/gacha/A/C/x-3.png",
              rarity := .star 2 } : GachaVariant).path :=
  C9_path_shape
    [Entry.dir (chars "A")
      [Entry.dir (chars "C") [Entry.file (chars "x-3.png")]]]
    (chars "A")
    [(chars "C",
      [{ path := chars "images/gacha/A/C/x-3.png", rarity := .star 2 }])]
    (by decide)
    (chars "C")
    [{ path := chars "images/gacha/A/C/x-3.png", rarity := .star 2 }]
    (by decide)
    { path := chars "images/gacha/A/C/x-3.png", rarity := .star 2 }
    (by decide)

/-- C10: the cosmetics walker applies no extension filter — every
regular file directly inside a pack directory yields exactly one item
(the items are the details of the file names, in order, and each file's
details are present), and only nested directories are excluded (the
item count equals the file count). -/
theorem C10_no_extension_filter (es : List Entry) :
    packItems es = (es.filterMap fileName?).map get_cosmetic_details ∧
    (packItems es).length = (es.filter Entry.isFile).length ∧
    (∀ n, Entry.file n ∈ es → get_cosmetic_details n ∈ packItems es) ∧
    packItems [Entry.file (chars "notes.txt")] =
      [get_cosmetic_details (chars "notes.txt")] := by
  refine ⟨packItems_eq_map es, ?_, ?_, rfl⟩
  · rw [packItems_eq_map es, List.length_map]
    induction es with
    | nil => rfl
    | cons e es ih =>
      cases e with
      | file n =>
        simp only [List.filterMap_cons, fileName?, List.filter_cons,
          Entry.isFile, if_true, List.length_cons]
        rw [ih]
      | dir n es' =>
        simp only [List.filterMap_cons, fileName?, List.filter_cons,
          Entry.isFile, Bool.false_eq_true, if_false]
        exact ih
  · intro n hn
    show _ ∈ List.filterMap cosmeticsItemOfEntry es
    exact List.mem_filterMap.mpr ⟨Entry.file n, hn, rfl⟩

/-- C10 witness: a non-image text file still yields its item. -/
theorem C10_no_extension_filter_witness :
    get_cosmetic_details (chars "notes.txt") ∈
      packItems [Entry.file (chars "notes.txt")] :=
  (C10_no_extension_filter [Entry.file (chars "notes.txt")]).2.2.1
    (chars "notes.txt") (List.mem_cons_self _ _)

end AnimeDashboard
